import Mathlib

/-!
Verification development for `src/Extra/convert.py` (mambuflo).

The file shallowly embeds the program's pure core: key normalization
(`key.replace('backbone.', '')` in `dissect`, line 35), the per-tensor
precision policy, destination-path construction, the state-dict rebuild
performed by `dissect`, the per-tensor export pipeline
(`astype` + `tobytes` + metadata record, `main` lines 53-69), and the
argv handling at the top of `main` (lines 41-47).

Strings are handled at the `List Char` level where proofs need structural
recursion; `String` wrappers mirror the Python call sites.
-/

namespace MambuFlo

/-- Characters of the literal `"backbone."` that `dissect` (convert.py line 35)
passes to `str.replace` as the substring to remove. -/
def backbonePat : List Char := ['b', 'a', 'c', 'k', 'b', 'o', 'n', 'e', '.']

/-- Embedding of Python `key.replace('backbone.', '')` (convert.py line 35) on the
character list of `key`: scan left to right; whenever the literal nine characters
of `"backbone."` start at the current position, emit nothing and resume scanning
after them (Python `replace` substitutes non-overlapping occurrences left to
right); otherwise keep the current character and continue. -/
def stripBackbone : List Char → List Char
  | 'b' :: 'a' :: 'c' :: 'k' :: 'b' :: 'o' :: 'n' :: 'e' :: '.' :: rest =>
      stripBackbone rest
  | c :: cs => c :: stripBackbone cs
  | [] => []

/-- The key rewrite applied by `dissect` to every state-dict key:
`new_key = key.replace('backbone.', '')` (convert.py line 35). -/
def normalizeKey (s : String) : String := ⟨stripBackbone s.data⟩

/-- Embedding of the Python substring test `x in s` on character lists:
some position of the list starts with `pat`. -/
def containsSub (pat : List Char) : List Char → Bool
  | [] => pat.isEmpty
  | c :: cs => pat.isPrefixOf (c :: cs) || containsSub pat cs

/-- The five marker substrings of convert.py line 56: a key containing any of
them is stored at 16-bit precision. -/
def markerSubstrings : List String :=
  ["embedding", "lm_head", "in_proj", "out_proj", "x_proj"]

/-- Embedding of the dtype selection of convert.py line 56:
`dtype = 'f2' if any([x in key for x in [...]]) else 'f4'`. -/
def dtypeFor (key : String) : String :=
  if markerSubstrings.any (fun x => containsSub x.data key.data) then ("f2") else ("f4")

/-- The boolean recorded as `is16bit` in the metadata record
(convert.py line 61: `'is16bit': dtype == 'f2'`). -/
def is16bitFor (key : String) : Bool := dtypeFor key == ("f2")

/-- Byte width of one element of a numpy array of dtype `'f2'` (2 bytes) or
`'f4'` (4 bytes), as used by `ndarray.tobytes` (convert.py lines 57 and 64). -/
def itemsizeOf (dtype : String) : Nat := if dtype == ("f2") then 2 else 4

/-! ### The state-dict rebuild performed by `dissect` (convert.py lines 33-38)

`new_state_dict = {}` followed by `new_state_dict[new_key] = state_dict[key]`
inside a `for key in state_dict` loop.  A Python dict is modelled as an
association list in insertion order; assigning to an existing key updates its
value in place, assigning a fresh key appends. -/

/-- Python dict assignment `d[k] = v` on an insertion-ordered association list:
update in place when `k` is already a key, append otherwise. -/
def dictInsert {V : Type} (d : List (String × V)) (k : String) (v : V) :
    List (String × V) :=
  if d.any (fun p => p.1 == k) then
    d.map (fun p => if p.1 == k then (k, v) else p)
  else d ++ [(k, v)]

/-- Python dict lookup `d[k]` on the association-list model. -/
def lookupKey {V : Type} (d : List (String × V)) (k : String) : Option V :=
  (d.find? (fun p => p.1 == k)).map (fun p => p.2)

/-- Embedding of the loop of `dissect` (convert.py lines 33-36): rebuild the
state dict with every key rewritten by `key.replace('backbone.', '')`. -/
def dissectFold {V : Type} (sd : List (String × V)) : List (String × V) :=
  sd.foldl (fun acc kv => dictInsert acc (normalizeKey kv.1) kv.2) []

/-! ### Destination path construction (convert.py lines 53-54)

`foldername = Path(os.path.dirname(__file__)) / "converted" / model_name / key`.
`pathlib`'s `/` appends one path segment: the right operand becomes the whole
path when it is absolute (starts with `'/'`), and is appended after a `'/'`
separator otherwise.  Dots inside a segment are ordinary characters. -/

/-- One `pathlib` `/` join on character lists. -/
def pathJoinL (a b : List Char) : List Char :=
  if b.head? = some '/' then b else a ++ '/' :: b

/-- The directory `<script dir>/converted/<model_name>` under which every
tensor's folder is created (convert.py line 53). -/
def destRoot (scriptDir modelName : List Char) : List Char :=
  pathJoinL (pathJoinL scriptDir ("converted").data) modelName

/-- The per-tensor destination `foldername` of convert.py line 53. -/
def foldernameFor (scriptDir modelName key : List Char) : List Char :=
  pathJoinL (destRoot scriptDir modelName) key

/-- Split a path into its `'/'`-separated segments (for reasoning about the
directory tree a path denotes). -/
def splitSlash : List Char → List (List Char)
  | [] => [[]]
  | c :: cs =>
    if c = '/' then [] :: splitSlash cs
    else
      match splitSlash cs with
      | [] => [[c]]
      | seg :: rest => (c :: seg) :: rest

/-! ### The per-tensor export pipeline (convert.py lines 53-69) -/

/-- Element dtype of a source torch tensor.  The mamba checkpoints hold
`float32` tensors; `int32` stands for a non-floating-point source dtype, which
the code converts with `astype` exactly like any other (it performs no dtype
check). -/
inductive TorchDType where
  | float32
  | int32
deriving DecidableEq

/-- A source tensor: its logical shape and its elements linearized in row-major
(C) order.  Elements are 32-bit machine words: IEEE-754 binary32 bit patterns
for `float32`, nonnegative integer values for `int32`. -/
structure Tensor where
  shape : List Nat
  dtype : TorchDType
  elems : List Nat
deriving DecidableEq

/-- Round-to-nearest-even removal of the low `k` bits of `m`
(the integer core of IEEE binary rounding). -/
def rneShift (m k : Nat) : Nat :=
  let q := m / 2 ^ k
  let r := m % 2 ^ k
  if 2 ^ k < 2 * r || (2 * r == 2 ^ k && q % 2 == 1) then q + 1 else q

/-- Position of the highest set bit of `n` (values below `2 ^ 64` suffice here);
`floorLog2 0 = 0`. -/
def floorLog2 (n : Nat) : Nat :=
  ((List.range 64).filter (fun i => 2 ^ i ≤ n)).length - 1

/-- IEEE-754 binary32 bit pattern of a nonnegative integer (round to nearest
even), modelling numpy's int-to-float conversion inside `astype`. -/
def natToF32 (n : Nat) : Nat :=
  if n = 0 then 0
  else
    let k := floorLog2 n
    if k ≤ 23 then (k + 127) * 2 ^ 23 + (n * 2 ^ (23 - k) - 2 ^ 23)
    else
      let q := rneShift n (k - 23)
      let e := k + 104 + q / 2 ^ 24
      let q2 := if q = 2 ^ 24 then 2 ^ 23 else q
      if 255 ≤ e then 0x7F800000 else e * 2 ^ 23 + (q2 - 2 ^ 23)

/-- IEEE-754 binary32-to-binary16 conversion (round to nearest even, overflow
to infinity, NaN preserved), modelling numpy `astype('f2')` on a `float32`
bit pattern. -/
def f32ToF16 (x : Nat) : Nat :=
  let s := x / 2 ^ 31 % 2
  let e := x / 2 ^ 23 % 2 ^ 8
  let f := x % 2 ^ 23
  let mag :=
    if e = 255 then (if f = 0 then 0x7C00 else 0x7E00)
    else if 143 ≤ e then 0x7C00
    else if 113 ≤ e then
      let q := rneShift (2 ^ 23 + f) 13
      let e16 := e - 112 + q / 2 ^ 11
      let q2 := if q = 2 ^ 11 then 2 ^ 10 else q
      if 31 ≤ e16 then 0x7C00 else e16 * 2 ^ 10 + (q2 - 2 ^ 10)
    else
      rneShift (if e = 0 then f else 2 ^ 23 + f) (126 - e)
  s * 2 ^ 15 + mag

/-- Elementwise effect of `data.numpy().astype(dtype, order='C')`
(convert.py line 57) on one stored element, as a function of the source torch
dtype and the target numpy dtype string: identity on `float32` for `'f4'`,
binary16 rounding for `'f2'`, and int-to-float conversion for `int32` sources
(no dtype is rejected). -/
def convElem (dt : TorchDType) (dtype : String) (v : Nat) : Nat :=
  match dt with
  | .float32 => if dtype == ("f2") then f32ToF16 (v % 2 ^ 32) else v % 2 ^ 32
  | .int32 => if dtype == ("f2") then f32ToF16 (natToF32 v) else natToF32 v

/-- The `itemsize` bytes of one element in numpy's native byte order on the
platforms the script runs on: least-significant byte first. -/
def bytesLE (k v : Nat) : List Nat :=
  (List.range k).map (fun j => v / 256 ^ j % 256)

/-- Concatenation of per-element byte blocks, as `ndarray.tobytes()` emits them
for a C-ordered array: element after element, no header and no padding. -/
def concatBytes : List (List Nat) → List Nat
  | [] => []
  | b :: bs => b ++ concatBytes bs

/-- Value denoted by a little-endian byte block, least-significant byte
first. -/
def wordOfLE : List Nat → Nat
  | [] => 0
  | b :: bs => b + 256 * wordOfLE bs

/-- The consumer-side reading contract the spec states for an exported pair:
`weights.bin` is decoded "according to `shape`/`is16bit`" as `n` consecutive
words (`n` the product of the recorded shape) of `k` bytes each (`k` the
tier's byte width), every word least-significant byte first, starting at
offset zero with no header and no padding. -/
def decodeLE (k : Nat) : Nat → List Nat → List Nat
  | 0, _ => []
  | n + 1, bytes => wordOfLE (bytes.take k) :: decodeLE k n (bytes.drop k)

/-- The metadata record of convert.py lines 58-62:
`{'key': key, 'shape': data.shape, 'is16bit': dtype == 'f2'}`. -/
structure Metadata where
  key : String
  shape : List Nat
  is16bit : Bool
deriving DecidableEq

/-- Field names of the JSON object `json.dumps(metadata)` writes to
`metadata.json` (convert.py lines 58-62 and 65-66), in dict insertion order.
No other field — in particular no byte-order indicator — is written. -/
def metadataKeys : List String := ["key", "shape", "is16bit"]

/-- Everything the loop body of `main` (convert.py lines 53-69) produces for
one state-dict entry: the destination directory and the contents of the two
files written under it. -/
structure ExportRecord where
  foldername : List Char
  metadata : Metadata
  payload : List Nat
deriving DecidableEq

/-- Embedding of one iteration of the export loop of `main`
(convert.py lines 53-69) for the state-dict entry `(key, t)`: compute the
destination folder, select the dtype from the key, convert the elements with
`astype`, and produce the metadata record and the `tobytes()` payload.
The loop body contains no failure branch: every entry yields a record. -/
def exportEntry (scriptDir modelName : List Char) (key : String) (t : Tensor) :
    ExportRecord :=
  let foldername := foldernameFor scriptDir modelName key.data
  let dtype := dtypeFor key
  let npData := t.elems.map (convElem t.dtype dtype)
  { foldername := foldername
    metadata := { key := key, shape := t.shape, is16bit := dtype == ("f2") }
    payload := concatBytes (npData.map (bytesLE (itemsizeOf dtype))) }

/-! ### Argument handling at the top of `main` (convert.py lines 41-47)

`if len(sys.argv) < 1: print(usage); return -1 else: model_name = sys.argv[1]`.
`sys.argv` always contains the script name, so the guard can never fire; with
no model argument `sys.argv[1]` raises an uncaught `IndexError`.  The module
calls `main()` without `sys.exit`, so a normal return — including the
`return -1` of the guard — exits with status 0, while an uncaught exception
exits with status 1. -/

/-- How `main` starts for a given `sys.argv`. -/
inductive MainStart where
  | usageMessage
  | proceed (modelName : String)
  | indexErrorCrash
deriving DecidableEq

/-- Embedding of convert.py lines 42-46. -/
def mainStart (argv : List String) : MainStart :=
  if argv.length < 1 then .usageMessage
  else
    match argv.get? 1 with
    | some m => .proceed m
    | none => .indexErrorCrash

/-- Process exit status for each way `main` can start: discarded return value
of `main()` gives status 0, an uncaught exception gives status 1. -/
def exitStatusOf : MainStart → Nat
  | .usageMessage => 0
  | .proceed _ => 0
  | .indexErrorCrash => 1

/-! ## Lemmas about key normalization -/

/-- A successful `isPrefixOf` exhibits the list as pattern-plus-tail. -/
theorem isPrefixOf_exists {p l : List Char} (h : p.isPrefixOf l = true) :
    ∃ t, l = p ++ t := by
  induction p generalizing l with
  | nil => exact ⟨l, rfl⟩
  | cons a as ih =>
    cases l with
    | nil => simp [List.isPrefixOf] at h
    | cons b bs =>
      simp only [List.isPrefixOf, Bool.and_eq_true, beq_iff_eq] at h
      obtain ⟨h1, h2⟩ := h
      subst h1
      obtain ⟨t, ht⟩ := ih h2
      exact ⟨t, by rw [ht]; rfl⟩

/-- When the scan position starts with `"backbone."`, the replacement removes
those nine characters and resumes after them. -/
theorem strip_pat_append (t : List Char) :
    stripBackbone (backbonePat ++ t) = stripBackbone t := rfl

set_option maxHeartbeats 1000000 in
/-- When the scan position does not start with `"backbone."`, the replacement
keeps the current character and moves on. -/
theorem strip_cons_of_no_match (c : Char) (cs : List Char)
    (h : backbonePat.isPrefixOf (c :: cs) = false) :
    stripBackbone (c :: cs) = c :: stripBackbone cs := by
  rw [stripBackbone.eq_def]
  split
  next rest heq =>
    exfalso
    rw [heq] at h
    simp [backbonePat, List.isPrefixOf] at h
  next c2 cs2 hno heq =>
    cases heq
    rfl
  next heq =>
    exact absurd heq (by simp)

/-- A list with no occurrence of `"backbone."` is left unchanged by the
replacement. -/
theorem strip_of_not_contains {l : List Char}
    (h : containsSub backbonePat l = false) : stripBackbone l = l := by
  induction l with
  | nil => rfl
  | cons c cs ih =>
    simp only [containsSub, Bool.or_eq_false_iff] at h
    rw [strip_cons_of_no_match c cs h.1, ih h.2]

/-- Expansion of the `any([x in key for x in [...]])` test of convert.py
line 56 into the five marker-substring tests. -/
theorem marker_any_iff (s : String) :
    (markerSubstrings.any (fun x => containsSub x.data s.data) = true)
      ↔ (containsSub ("embedding").data s.data = true
        ∨ containsSub ("lm_head").data s.data = true
        ∨ containsSub ("in_proj").data s.data = true
        ∨ containsSub ("out_proj").data s.data = true
        ∨ containsSub ("x_proj").data s.data = true) := by
  simp [markerSubstrings]

/-- Replacement never lengthens the list (induction on a length bound, since
the scan consumes nine characters at once on a match). -/
theorem strip_length_le_fuel :
    ∀ (n : Nat) (l : List Char), l.length ≤ n →
      (stripBackbone l).length ≤ l.length := by
  intro n
  induction n with
  | zero =>
    intro l hl
    have hnil : l = [] := List.eq_nil_of_length_eq_zero (Nat.le_zero.mp hl)
    subst hnil
    exact Nat.le_refl _
  | succ n ih =>
    intro l hl
    cases l with
    | nil => exact Nat.le_refl _
    | cons c cs =>
      by_cases hp : backbonePat.isPrefixOf (c :: cs) = true
      · obtain ⟨t, ht⟩ := isPrefixOf_exists hp
        have hlen : (backbonePat ++ t).length = 9 + t.length := by
          simp [backbonePat]
          omega
        have hlcc : (c :: cs).length ≤ n + 1 := hl
        rw [ht] at hlcc ⊢
        rw [strip_pat_append]
        have htn : t.length ≤ n := by omega
        have := ih t htn
        omega
      · have hp2 : backbonePat.isPrefixOf (c :: cs) = false := Bool.eq_false_iff.mpr hp
        rw [strip_cons_of_no_match c cs hp2]
        simp only [List.length_cons]
        have hcs : cs.length ≤ n := by
          simp only [List.length_cons] at hl
          omega
        exact Nat.succ_le_succ (ih cs hcs)

/-- Replacement never lengthens the list. -/
theorem strip_length_le (l : List Char) : (stripBackbone l).length ≤ l.length :=
  strip_length_le_fuel l.length l (Nat.le_refl _)

/-- Removing an occurrence of `"backbone."` strictly shortens the list. -/
theorem strip_length_lt {l : List Char} (h : containsSub backbonePat l = true) :
    (stripBackbone l).length < l.length := by
  induction l with
  | nil => simp [containsSub, backbonePat] at h
  | cons c cs ih =>
    by_cases hp : backbonePat.isPrefixOf (c :: cs) = true
    · obtain ⟨t, ht⟩ := isPrefixOf_exists hp
      have h1 := strip_length_le t
      have hlen : (backbonePat ++ t).length = 9 + t.length := by
        simp [backbonePat]
        omega
      rw [ht, strip_pat_append]
      omega
    · have hp2 : backbonePat.isPrefixOf (c :: cs) = false := Bool.eq_false_iff.mpr hp
      rw [strip_cons_of_no_match c cs hp2]
      simp only [containsSub, Bool.or_eq_true] at h
      rcases h with h | h
      · exact absurd h hp
      · simp only [List.length_cons]
        exact Nat.succ_lt_succ (ih h)

/-! ## Lemmas about the byte pipeline, paths, and the dict rebuild -/

/-- Every element contributes exactly `k` bytes. -/
theorem bytesLE_length (k v : Nat) : (bytesLE k v).length = k := by
  simp [bytesLE]

/-- Length of a `tobytes`-style concatenation of fixed-width blocks. -/
theorem concatBytes_map_length (k : Nat) (l : List Nat) :
    (concatBytes (l.map (bytesLE k))).length = l.length * k := by
  induction l with
  | nil => simp [concatBytes]
  | cons a tl ih =>
    simp only [List.map_cons, concatBytes, List.length_append, bytesLE_length, ih,
      List.length_cons]
    ring

/-- Byte `j` of element `i` sits at flat offset `i * k + j` and is the `j`-th
least-significant byte of that element. -/
theorem concatBytes_getElem (k : Nat) (l : List Nat) (i j : Nat)
    (hi : i < l.length) (hj : j < k) :
    (concatBytes (l.map (bytesLE k)))[i * k + j]?
      = some (l.get ⟨i, hi⟩ / 256 ^ j % 256) := by
  induction l generalizing i with
  | nil => exact absurd hi (by simp)
  | cons a tl ih =>
    cases i with
    | zero =>
      simp only [List.map_cons, concatBytes]
      rw [List.getElem?_append, if_pos (by rw [bytesLE_length]; omega)]
      have hz : 0 * k + j = j := by omega
      rw [hz, bytesLE, List.getElem?_map, List.getElem?_range hj]
      rfl
    | succ i2 =>
      have hsplit : (i2 + 1) * k + j = k + (i2 * k + j) := by ring
      simp only [List.map_cons, concatBytes]
      rw [hsplit,
        List.getElem?_append_right (by rw [bytesLE_length]; exact Nat.le_add_right k _)]
      rw [bytesLE_length, Nat.add_sub_cancel_left]
      have hi2 : i2 < tl.length := by simpa using hi
      rw [ih i2 hi2]
      rfl

/-- bytesLE peels off the least-significant byte first. -/
theorem bytesLE_succ (k v : Nat) :
    bytesLE (k + 1) v = v % 256 :: bytesLE k (v / 256) := by
  simp only [bytesLE, List.range_succ_eq_map, List.map_cons, List.map_map,
    pow_zero, Nat.div_one]
  congr 1
  apply List.map_congr_left
  intro j hj
  show v / 256 ^ (j + 1) % 256 = v / 256 / 256 ^ j % 256
  rw [pow_succ', Nat.div_div_eq_div_mul]

/-- Reassembling the `k` little-endian bytes of `v` yields `v` mod `256 ^ k`. -/
theorem wordOfLE_bytesLE (k v : Nat) : wordOfLE (bytesLE k v) = v % 256 ^ k := by
  induction k generalizing v with
  | zero => simp [bytesLE, wordOfLE, Nat.mod_one]
  | succ k ih =>
    rw [bytesLE_succ]
    simp only [wordOfLE]
    rw [ih, pow_succ', Nat.mod_mul]

/-- Decoding a `tobytes`-style concatenation of `k`-byte blocks recovers every
word reduced modulo `256 ^ k`. -/
theorem decodeLE_concatBytes (k : Nat) (l : List Nat) :
    decodeLE k l.length (concatBytes (l.map (bytesLE k)))
      = l.map (fun v => v % 256 ^ k) := by
  induction l with
  | nil => rfl
  | cons a tl ih =>
    simp only [List.map_cons, concatBytes, List.length_cons, decodeLE]
    rw [List.take_left' (bytesLE_length k a), List.drop_left' (bytesLE_length k a),
      wordOfLE_bytesLE, ih]

/-- rneShift rounds to the floor or its successor. -/
theorem rneShift_le (m k : Nat) : rneShift m k ≤ m / 2 ^ k + 1 := by
  simp only [rneShift]
  split
  · exact Nat.le_refl _
  · exact Nat.le_succ _

/-- A rounded subnormal-or-smaller magnitude fits well below the normal
range: shifting a 24-bit significand right by at least 14 bits leaves at most
11 bits. -/
theorem rneShift_small (m sh : Nat) (hm : m < 2 ^ 24) (hsh : 14 ≤ sh) :
    rneShift m sh < 2 ^ 11 := by
  have hb := rneShift_le m sh
  have hmono : m / 2 ^ sh ≤ m / 2 ^ 14 :=
    Nat.div_le_div_left (Nat.pow_le_pow_right (by norm_num) hsh) (by norm_num)
  omega

/-- The converted binary16 pattern always fits in 16 bits. -/
theorem f32ToF16_lt (x : Nat) : f32ToF16 x < 2 ^ 16 := by
  have hs : x / 2 ^ 31 % 2 < 2 := Nat.mod_lt _ (by norm_num)
  have he : x / 2 ^ 23 % 2 ^ 8 < 2 ^ 8 := Nat.mod_lt _ (by norm_num)
  have hf : x % 2 ^ 23 < 2 ^ 23 := Nat.mod_lt _ (by norm_num)
  have hq13 := rneShift_le (2 ^ 23 + x % 2 ^ 23) 13
  simp only [f32ToF16]
  split_ifs <;> try omega
  all_goals
    first
      | (have hb := rneShift_small (x % 2 ^ 23) (126 - x / 2 ^ 23 % 2 ^ 8)
            (by omega) (by omega)
         omega)
      | (have hb := rneShift_small (2 ^ 23 + x % 2 ^ 23) (126 - x / 2 ^ 23 % 2 ^ 8)
            (by omega) (by omega)
         omega)

/-- Elementwise effect of the reduced tier after byte round-trip: the decoded
16-bit word is exactly the round-to-nearest binary16 conversion. -/
theorem convElem_f2_mod (v : Nat) (hv : v < 2 ^ 32) :
    convElem TorchDType.float32 ("f2") v % 256 ^ 2 = f32ToF16 v := by
  have h1 : convElem TorchDType.float32 ("f2") v = f32ToF16 v := by
    simp only [convElem]
    rw [if_pos (by decide), Nat.mod_eq_of_lt hv]
  have h2 : (256 : Nat) ^ 2 = 2 ^ 16 := by norm_num
  rw [h1, h2]
  exact Nat.mod_eq_of_lt (f32ToF16_lt v)

/-- Elementwise effect of the full tier after byte round-trip: the decoded
32-bit word is exactly the original binary32 bit pattern. -/
theorem convElem_f4_mod (v : Nat) (hv : v < 2 ^ 32) :
    convElem TorchDType.float32 ("f4") v % 256 ^ 4 = v := by
  have h1 : convElem TorchDType.float32 ("f4") v = v := by
    simp only [convElem]
    rw [if_neg (by decide), Nat.mod_eq_of_lt hv]
  have h2 : (256 : Nat) ^ 4 = 2 ^ 32 := by norm_num
  rw [h1, h2]
  exact Nat.mod_eq_of_lt hv

/-- Splitting a path never yields an empty segment list. -/
theorem splitSlash_ne_nil (l : List Char) : splitSlash l ≠ [] := by
  cases l with
  | nil => simp [splitSlash]
  | cons c cs =>
    simp only [splitSlash]
    by_cases h : c = '/'
    · simp [h]
    · rw [if_neg h]
      cases hsp : splitSlash cs <;> simp

/-- A slash-free list is a single path segment. -/
theorem splitSlash_no_slash {l : List Char} (h : '/' ∉ l) : splitSlash l = [l] := by
  induction l with
  | nil => rfl
  | cons c cs ih =>
    simp only [List.mem_cons, not_or] at h
    simp only [splitSlash]
    rw [if_neg (fun hc => h.1 hc.symm), ih h.2]

/-- Appending `'/'` and a slash-free segment appends exactly one path segment. -/
theorem splitSlash_append {p k : List Char} (hk : '/' ∉ k) :
    splitSlash (p ++ '/' :: k) = splitSlash p ++ [k] := by
  induction p with
  | nil => simp [splitSlash, splitSlash_no_slash hk]
  | cons c cs ih =>
    by_cases h : c = '/'
    · subst h
      simp [splitSlash, ih]
    · obtain ⟨s0, srest, hsp⟩ : ∃ s0 srest, splitSlash cs = s0 :: srest := by
        cases hsp : splitSlash cs with
        | nil => exact absurd hsp (splitSlash_ne_nil cs)
        | cons a b => exact ⟨a, b, rfl⟩
      simp [splitSlash, if_neg h, ih, hsp]

/-- After a Python dict assignment `d[k] = v`, looking up `k` yields `v`. -/
theorem lookup_dictInsert {V : Type} (d : List (String × V)) (k : String) (v : V) :
    lookupKey (dictInsert d k v) k = some v := by
  induction d with
  | nil =>
    simp only [dictInsert, lookupKey]
    rw [if_neg (by simp), List.nil_append,
      List.find?_cons_of_pos _ (by simp)]
    rfl
  | cons p ps ih =>
    by_cases hp : (p.1 == k) = true
    · have hany : ((p :: ps).any (fun q => q.1 == k)) = true := by
        simp only [List.any_cons, hp, Bool.true_or]
      simp only [dictInsert, lookupKey]
      rw [if_pos hany, List.map_cons,
        List.find?_cons_of_pos _ (by simp [hp])]
      simp [hp]
    · have hp2 : (p.1 == k) = false := Bool.eq_false_iff.mpr hp
      by_cases ha : (ps.any (fun q => q.1 == k)) = true
      · have hany : ((p :: ps).any (fun q => q.1 == k)) = true := by
          simp only [List.any_cons, ha, Bool.or_true]
        have hd : dictInsert ps k v
            = ps.map (fun q => if q.1 == k then (k, v) else q) := by
          rw [dictInsert, if_pos ha]
        simp only [dictInsert, lookupKey]
        rw [if_pos hany, List.map_cons,
          List.find?_cons_of_neg _ (by simp [hp2]), ← hd]
        exact ih
      · have ha2 : (ps.any (fun q => q.1 == k)) = false := Bool.eq_false_iff.mpr ha
        have hany2 : ((p :: ps).any (fun q => q.1 == k)) = false := by
          simp only [List.any_cons, hp2, Bool.false_or, ha2]
        have hd2 : dictInsert ps k v = ps ++ [(k, v)] := by
          rw [dictInsert, if_neg ha]
        simp only [dictInsert, lookupKey]
        rw [if_neg (fun hcon => by rw [hany2] at hcon; exact Bool.false_ne_true hcon),
          List.cons_append,
          List.find?_cons_of_neg _ (by simp [hp2]), ← hd2]
        exact ih

/-! ## Claim theorems -/

/-- C1, counterexample: the claim says a name that does not start with
`"backbone."` is returned unchanged and non-leading occurrences are preserved;
on the input `"a.backbone.b"` the code returns `"a.b"`, removing a non-leading
occurrence. -/
theorem claim1_counterexample :
    normalizeKey ("a.backbone.b") = ("a.b")
    ∧ normalizeKey ("a.backbone.b") ≠ ("a.backbone.b") := by decide

/-- C1, amended: `normalize` removes every left-to-right non-overlapping
occurrence of `"backbone."`, not only a leading one — a name with no occurrence
is returned unchanged, an occurrence at the scan position is removed with
scanning resuming after it, and a non-matching scan position keeps its
character, so later occurrences are removed as well. -/
theorem claim1_normalize_removes_every_occurrence :
    (∀ s : String, containsSub backbonePat s.data = false → normalizeKey s = s)
    ∧ (∀ s : String, normalizeKey (("backbone.") ++ s) = normalizeKey s)
    ∧ (∀ (c : Char) (cs : List Char), backbonePat.isPrefixOf (c :: cs) = false →
        stripBackbone (c :: cs) = c :: stripBackbone cs) := by
  refine ⟨?_, ?_, strip_cons_of_no_match⟩
  · intro s h
    apply String.ext
    exact strip_of_not_contains h
  · intro s
    apply String.ext
    show stripBackbone (("backbone.") ++ s).data = stripBackbone s.data
    rw [String.data_append]
    exact strip_pat_append s.data

/-- Witness for C1's amended theorem at concrete inputs. -/
theorem claim1_normalize_removes_every_occurrence_w :
    normalizeKey ("norm.weight") = ("norm.weight")
    ∧ normalizeKey (("backbone.") ++ ("x")) = normalizeKey ("x")
    ∧ stripBackbone ('a' :: (".backbone.b").data)
        = 'a' :: stripBackbone (".backbone.b").data :=
  ⟨claim1_normalize_removes_every_occurrence.1 ("norm.weight") (by decide),
    claim1_normalize_removes_every_occurrence.2.1 ("x"),
    claim1_normalize_removes_every_occurrence.2.2 'a' (".backbone.b").data (by decide)⟩

/-- C4, counterexample: normalization is not idempotent — removing all
occurrences of `"backbone."` from `"backbonebackbone.."` yields `"backbone."`,
and a second application removes that newly formed occurrence. -/
theorem claim4_counterexample :
    normalizeKey (normalizeKey ("backbonebackbone.."))
      ≠ normalizeKey ("backbonebackbone..") := by decide

/-- C4, amended: normalization is idempotent exactly on the names whose
normalized form contains no occurrence of `"backbone."` (which covers every
name in which the substring occurs only as a leading prefix).  When an
occurrence survives normalization, a second application removes it and
strictly shortens the name, so idempotence fails; when none survives, a
second application changes nothing. -/
theorem claim4_normalize_idempotent_amended (s : String) :
    normalizeKey (normalizeKey s) = normalizeKey s
      ↔ containsSub backbonePat (normalizeKey s).data = false := by
  constructor
  · intro heq
    by_cases hc : containsSub backbonePat (normalizeKey s).data = true
    · exfalso
      have hlt := strip_length_lt hc
      have hlen : (stripBackbone (normalizeKey s).data).length
          = (normalizeKey s).data.length :=
        congrArg (fun t : String => t.data.length) heq
      omega
    · exact Bool.eq_false_iff.mpr hc
  · intro h
    apply String.ext
    exact strip_of_not_contains h

/-- C3: precision selection is total and deterministic — `is16bitFor` is a
function into `Bool` — and it returns the 16-bit tier exactly when the key
contains one of the five marker substrings, the 32-bit tier otherwise. -/
theorem claim3_precision_selection (s : String) :
    (is16bitFor s = true ↔
      (containsSub ("embedding").data s.data = true
        ∨ containsSub ("lm_head").data s.data = true
        ∨ containsSub ("in_proj").data s.data = true
        ∨ containsSub ("out_proj").data s.data = true
        ∨ containsSub ("x_proj").data s.data = true))
    ∧ (is16bitFor s = true ∨ is16bitFor s = false) := by
  refine ⟨?_, ?_⟩
  · rw [← marker_any_iff s]
    show (dtypeFor s == ("f2")) = true ↔ _
    rw [dtypeFor]
    by_cases hc : (markerSubstrings.any (fun x => containsSub x.data s.data)) = true
    · rw [if_pos hc]
      simp [hc]
    · rw [if_neg hc]
      have h4 : (("f4" : String) == ("f2")) = false := by decide
      rw [h4]
      simp [hc]
  · cases h : is16bitFor s
    · exact Or.inr rfl
    · exact Or.inl rfl

/-- C9: with no model argument (`sys.argv = ['convert.py']`) the `< 1` guard
does not fire, `sys.argv[1]` raises an uncaught `IndexError`, and the process
exits 1 without ever printing the usage message; with a valid argument `main`
proceeds and exits 0. -/
theorem claim9_missing_arg_behavior :
    mainStart [("convert.py")] = MainStart.indexErrorCrash
    ∧ exitStatusOf (mainStart [("convert.py")]) = 1
    ∧ mainStart [("convert.py")] ≠ MainStart.usageMessage
    ∧ mainStart [("convert.py"), ("mamba-130m")] = MainStart.proceed ("mamba-130m")
    ∧ exitStatusOf (mainStart [("convert.py"), ("mamba-130m")]) = 0 := by decide

/-- C2: for every exported tensor, the `weights.bin` byte count equals the
product of the shape recorded in the paired metadata, times 2 when `is16bit`
is true and 4 when it is false.  The hypothesis states the tensor invariant:
the element count equals the product of the dimensions. -/
theorem claim2_payload_length (scriptDir modelName : List Char) (key : String)
    (t : Tensor) (h : t.elems.length = t.shape.prod) :
    (exportEntry scriptDir modelName key t).payload.length
      = (exportEntry scriptDir modelName key t).metadata.shape.prod
        * (if (exportEntry scriptDir modelName key t).metadata.is16bit then 2 else 4) := by
  show (concatBytes ((t.elems.map (convElem t.dtype (dtypeFor key))).map
      (bytesLE (itemsizeOf (dtypeFor key))))).length
    = t.shape.prod * (if (dtypeFor key == ("f2")) = true then 2 else 4)
  rw [concatBytes_map_length, List.length_map, h]
  rfl

/-- Witness for C2 at a concrete full-precision tensor of shape `[2, 3]`. -/
theorem claim2_payload_length_w :
    (exportEntry ("/app/Extra").data ("mamba-130m").data ("norm.weight")
        ⟨[2, 3], .float32, [0, 1, 2, 3, 4, 5]⟩).payload.length
      = (exportEntry ("/app/Extra").data ("mamba-130m").data ("norm.weight")
          ⟨[2, 3], .float32, [0, 1, 2, 3, 4, 5]⟩).metadata.shape.prod
        * (if (exportEntry ("/app/Extra").data ("mamba-130m").data ("norm.weight")
            ⟨[2, 3], .float32, [0, 1, 2, 3, 4, 5]⟩).metadata.is16bit then 2 else 4) :=
  claim2_payload_length _ _ _ _ (by decide)

/-- C5: the destination of a tensor is the single directory named exactly by
the normalized key, directly under the `converted/<model>` root — the dots in
the key are not path separators and produce no nesting: splitting the full
path on `'/'` appends exactly one segment, the key itself. -/
theorem claim5_flat_destination (scriptDir modelName key : List Char)
    (h : '/' ∉ key) :
    splitSlash (foldernameFor scriptDir modelName key)
      = splitSlash (destRoot scriptDir modelName) ++ [key] := by
  have hne : ¬ key.head? = some '/' := by
    cases key with
    | nil => simp
    | cons a as =>
      simp only [List.head?_cons, Option.some.injEq]
      intro ha
      exact h (by simp [ha])
  have hjoin : foldernameFor scriptDir modelName key
      = destRoot scriptDir modelName ++ '/' :: key := by
    rw [foldernameFor, pathJoinL, if_neg hne]
  rw [hjoin, splitSlash_append h]

/-- Witness for C5 at a dotted key: the whole key is one path segment. -/
theorem claim5_flat_destination_w :
    splitSlash (foldernameFor ("/app/Extra").data ("mamba-130m").data
        ("layers.0.mixer.in_proj.weight").data)
      = splitSlash (destRoot ("/app/Extra").data ("mamba-130m").data)
        ++ [("layers.0.mixer.in_proj.weight").data] :=
  claim5_flat_destination _ _ _ (by decide)

/-- C6: decoding `weights.bin` according to the paired metadata — reading
`shape.prod` consecutive words of the tier's byte width from offset zero,
least-significant byte first, with no header or padding — reproduces the
tensor's elements in their row-major order: exactly the original binary32 bit
patterns when the tier is full precision, and exactly their round-to-nearest
binary16 conversions (`f32ToF16`, the model of `astype('f2')`) when the tier
is reduced — i.e. the original values up to binary16 round-to-nearest
rounding error.  The payload holds exactly `shape.prod` times the byte width
bytes.  Hypotheses: the tensor is floating point, well formed, and its
elements are 32-bit patterns. -/
theorem claim6_decode_roundtrip (scriptDir modelName : List Char) (key : String)
    (t : Tensor) (hdt : t.dtype = TorchDType.float32)
    (hsh : t.elems.length = t.shape.prod)
    (hw : ∀ v ∈ t.elems, v < 2 ^ 32) :
    (decodeLE (if (exportEntry scriptDir modelName key t).metadata.is16bit then 2 else 4)
        (exportEntry scriptDir modelName key t).metadata.shape.prod
        (exportEntry scriptDir modelName key t).payload
      = if (exportEntry scriptDir modelName key t).metadata.is16bit
        then t.elems.map f32ToF16 else t.elems)
    ∧ (exportEntry scriptDir modelName key t).payload.length
      = (exportEntry scriptDir modelName key t).metadata.shape.prod
        * (if (exportEntry scriptDir modelName key t).metadata.is16bit then 2 else 4) := by
  have hpay : (exportEntry scriptDir modelName key t).payload
      = concatBytes ((t.elems.map (convElem t.dtype (dtypeFor key))).map
          (bytesLE (itemsizeOf (dtypeFor key)))) := rfl
  have hbit : (exportEntry scriptDir modelName key t).metadata.is16bit
      = (dtypeFor key == ("f2")) := rfl
  have hshape : (exportEntry scriptDir modelName key t).metadata.shape = t.shape := rfl
  rw [hpay, hbit, hshape, hdt, ← hsh]
  have hdd : dtypeFor key = ("f2") ∨ dtypeFor key = ("f4") := by
    rw [dtypeFor]
    split
    · exact Or.inl rfl
    · exact Or.inr rfl
  rcases hdd with hd | hd <;> rw [hd]
  · have hbeq : (("f2" : String) == ("f2")) = true := by decide
    have hit : itemsizeOf ("f2") = 2 := by decide
    rw [hbeq, hit, if_pos rfl, if_pos rfl]
    constructor
    · have hrt := decodeLE_concatBytes 2 (t.elems.map (convElem TorchDType.float32 ("f2")))
      rw [List.length_map] at hrt
      rw [hrt, List.map_map]
      apply List.map_congr_left
      intro v hv
      exact convElem_f2_mod v (hw v hv)
    · rw [concatBytes_map_length, List.length_map]
  · have hbeq : (("f4" : String) == ("f2")) = false := by decide
    have hit : itemsizeOf ("f4") = 4 := by decide
    rw [hbeq, hit, if_neg (by simp), if_neg (by simp)]
    constructor
    · have hrt := decodeLE_concatBytes 4 (t.elems.map (convElem TorchDType.float32 ("f4")))
      rw [List.length_map] at hrt
      rw [hrt, List.map_map]
      conv_rhs => rw [← List.map_id t.elems]
      apply List.map_congr_left
      intro v hv
      exact convElem_f4_mod v (hw v hv)
    · rw [concatBytes_map_length, List.length_map]

/-- Witness for C6 at a concrete reduced-precision tensor: the binary32
patterns of 1.0 and -1.0 decode back as their binary16 conversions. -/
theorem claim6_decode_roundtrip_w :
    (decodeLE (if (exportEntry ("/app/Extra").data ("mamba-130m").data ("embedding.weight")
          ⟨[2], TorchDType.float32, [1065353216, 3212836864]⟩).metadata.is16bit then 2 else 4)
        (exportEntry ("/app/Extra").data ("mamba-130m").data ("embedding.weight")
          ⟨[2], TorchDType.float32, [1065353216, 3212836864]⟩).metadata.shape.prod
        (exportEntry ("/app/Extra").data ("mamba-130m").data ("embedding.weight")
          ⟨[2], TorchDType.float32, [1065353216, 3212836864]⟩).payload
      = if (exportEntry ("/app/Extra").data ("mamba-130m").data ("embedding.weight")
          ⟨[2], TorchDType.float32, [1065353216, 3212836864]⟩).metadata.is16bit
        then ([1065353216, 3212836864] : List Nat).map f32ToF16
        else ([1065353216, 3212836864] : List Nat))
    ∧ (exportEntry ("/app/Extra").data ("mamba-130m").data ("embedding.weight")
          ⟨[2], TorchDType.float32, [1065353216, 3212836864]⟩).payload.length
      = (exportEntry ("/app/Extra").data ("mamba-130m").data ("embedding.weight")
          ⟨[2], TorchDType.float32, [1065353216, 3212836864]⟩).metadata.shape.prod
        * (if (exportEntry ("/app/Extra").data ("mamba-130m").data ("embedding.weight")
            ⟨[2], TorchDType.float32, [1065353216, 3212836864]⟩).metadata.is16bit
           then 2 else 4) :=
  claim6_decode_roundtrip ("/app/Extra").data ("mamba-130m").data ("embedding.weight")
    ⟨[2], TorchDType.float32, [1065353216, 3212836864]⟩ rfl (by decide) (by decide)

/-- C7, counterexample: `"backbone.w"` and `"w"` are distinct source names
normalizing to the same key, and the rebuilt state dict silently holds only
the later tensor's value — nothing is detected or reported. -/
theorem claim7_counterexample :
    ("backbone.w") ≠ ("w")
    ∧ normalizeKey ("backbone.w") = normalizeKey ("w")
    ∧ dissectFold [(("backbone.w"), 1), (("w"), 2)] = [(("w"), 2)]
    ∧ lookupKey (dissectFold [(("backbone.w"), 1), (("w"), 2)]) ("w") = some 2 := by
  decide

/-- C7, amended: when two distinct source names normalize to the same key, the
later entry silently replaces the earlier one in the rebuilt state dict before
anything is written — the shared key maps to the second tensor's value and no
collision is detected or reported (the rebuild has no error path). -/
theorem claim7_collision_second_wins {V : Type} (sd : List (String × V))
    (k1 k2 : String) (v1 v2 : V) (hne : k1 ≠ k2)
    (hcol : normalizeKey k1 = normalizeKey k2) :
    lookupKey (dissectFold (sd ++ [(k1, v1), (k2, v2)])) (normalizeKey k1)
      = some v2 := by
  rw [dissectFold, List.foldl_append]
  simp only [List.foldl_cons, List.foldl_nil]
  rw [hcol]
  exact lookup_dictInsert _ _ _

/-- Witness for C7's amended theorem at the colliding pair. -/
theorem claim7_collision_second_wins_w :
    lookupKey (dissectFold (([] : List (String × Nat))
        ++ [(("backbone.w"), 1), (("w"), 2)])) (normalizeKey ("backbone.w"))
      = some 2 :=
  claim7_collision_second_wins [] ("backbone.w") ("w") 1 2 (by decide) (by decide)

/-- C8, counterexample: an `int32` tensor is exported with no error of any
kind: the loop body has no dtype check, `astype` silently converts the integer
values 1 and 2 into the IEEE-754 binary32 bytes below, contradicting the
claim that a non-floating-point tensor fails with `UnsupportedDtype` and that
no conversion is attempted. -/
theorem claim8_counterexample :
    (exportEntry ("/app/Extra").data ("mamba-130m").data ("norm.bias")
        ⟨[2], .int32, [1, 2]⟩).payload
      = [0, 0, 128, 63, 0, 0, 0, 64] := by decide

/-- C8, amended: the export performs no dtype check — a non-floating-point
tensor is not rejected; it is converted elementwise to the selected float
representation and exported exactly like a float tensor, with identical
destination, identical metadata, and a payload of the same byte length. -/
theorem claim8_export_ignores_dtype (scriptDir modelName : List Char)
    (key : String) (shape : List Nat) (elems : List Nat) :
    (exportEntry scriptDir modelName key ⟨shape, .int32, elems⟩).metadata
      = (exportEntry scriptDir modelName key ⟨shape, .float32, elems⟩).metadata
    ∧ (exportEntry scriptDir modelName key ⟨shape, .int32, elems⟩).foldername
      = (exportEntry scriptDir modelName key ⟨shape, .float32, elems⟩).foldername
    ∧ (exportEntry scriptDir modelName key ⟨shape, .int32, elems⟩).payload.length
      = (exportEntry scriptDir modelName key ⟨shape, .float32, elems⟩).payload.length := by
  refine ⟨rfl, rfl, ?_⟩
  show (concatBytes ((elems.map (convElem .int32 (dtypeFor key))).map
      (bytesLE (itemsizeOf (dtypeFor key))))).length
    = (concatBytes ((elems.map (convElem .float32 (dtypeFor key))).map
      (bytesLE (itemsizeOf (dtypeFor key))))).length
  rw [concatBytes_map_length, concatBytes_map_length, List.length_map,
    List.length_map]

/-- C10: the byte at flat offset `i * itemsize + j` of `weights.bin` is the
`j`-th least-significant byte of converted element `i` — elements are encoded
least-significant byte first — and the metadata record carries exactly the
fields `key`, `shape`, `is16bit`, so no byte-order indicator is written. -/
theorem claim10_little_endian (scriptDir modelName : List Char) (key : String)
    (t : Tensor) (i j : Nat) (hi : i < t.elems.length)
    (hj : j < itemsizeOf (dtypeFor key)) :
    (exportEntry scriptDir modelName key t).payload[i * itemsizeOf (dtypeFor key) + j]?
      = some (convElem t.dtype (dtypeFor key) (t.elems.get ⟨i, hi⟩) / 256 ^ j % 256)
    ∧ metadataKeys = [("key"), ("shape"), ("is16bit")] := by
  refine ⟨?_, rfl⟩
  show (concatBytes ((t.elems.map (convElem t.dtype (dtypeFor key))).map
      (bytesLE (itemsizeOf (dtypeFor key)))))[i * itemsizeOf (dtypeFor key) + j]? = _
  have hi2 : i < (t.elems.map (convElem t.dtype (dtypeFor key))).length := by
    simpa using hi
  rw [concatBytes_getElem _ _ i j hi2 hj]
  rw [List.get_map]

/-- Witness for C10: byte 2 of element 1 of a concrete full-precision tensor. -/
theorem claim10_little_endian_w :
    (exportEntry ("/app/Extra").data ("mamba-130m").data ("norm.weight")
        ⟨[2], .float32, [1065353216, 3212836864]⟩).payload[1 * itemsizeOf (dtypeFor ("norm.weight")) + 2]?
      = some (convElem TorchDType.float32 (dtypeFor ("norm.weight"))
          (([1065353216, 3212836864] : List Nat).get ⟨1, by decide⟩) / 256 ^ 2 % 256)
    ∧ metadataKeys = [("key"), ("shape"), ("is16bit")] :=
  claim10_little_endian ("/app/Extra").data ("mamba-130m").data ("norm.weight")
    ⟨[2], .float32, [1065353216, 3212836864]⟩ 1 2 (by decide) (by decide)

end MambuFlo
